import Mathlib

/-!
Verification of the `opa-compliance-test` fixture generator.

The repository is a batch pipeline: it loads OPA test-case definition
files, compiles each case's policy modules into a plan via the OPA
compiler, evaluates the modules to obtain an expected result set, and
writes the augmented test records as JSON fixture files.  The repository
exists in three successive variants; the claims below concern mostly the
final variant (`src/main.go`, second half), the middle variant
(`src/main.go`, first half) entering only through its entry-point
derivation expression.

All calls into the external OPA engine (module parser, plan compiler,
query compiler, top-down evaluator, JSON codec) and into the operating
system (directory walk, file reads/writes, directory creation) are
modelled as oracle functions collected in an `Env` record; the
repository's own control flow, string manipulation, counting and output
shaping are translated directly from the Go source.  Go `panic` is
modelled as the `Except`-error of type `GoPanic`; non-fatal per-case
failures are ordinary values that increment the failure counter.
-/

/-! ## Go string primitives

The Go standard-library string functions used by the source
(`strings.Split` with a one-character separator, `strings.TrimPrefix`,
`strings.ReplaceAll`), translated to work on the character list of a
`String`. -/

/-- Accumulator loop of Go `strings.Split(s, sep)` for a one-character
separator: cut the list at every occurrence of `c`. -/
def goSplitCharAux (c : Char) : List Char → List Char → List (List Char)
  | [], acc => [acc.reverse]
  | x :: xs, acc =>
    if x = c then acc.reverse :: goSplitCharAux c xs []
    else goSplitCharAux c xs (x :: acc)

/-- Go `strings.Split(s, sep)` for a one-character separator `c`
(the source only ever splits on `"/"`). -/
def goSplitL (c : Char) (l : List Char) : List (List Char) :=
  goSplitCharAux c l []

/-- `goSplitL` on `String`s. -/
def goSplitChar (c : Char) (s : String) : List String :=
  (goSplitL c s.data).map String.mk

/-- Go `strings.TrimPrefix(s, pre)` on character lists: drop `pre` from
the front when it is a prefix of `s`, otherwise return `s` unchanged. -/
def goTrimPrefixL (pre s : List Char) : List Char :=
  if pre.isPrefixOf s then s.drop pre.length else s

/-- Go `strings.TrimPrefix(s, pre)` on `String`s. -/
def goTrimPrefix (s pre : String) : String :=
  ⟨goTrimPrefixL pre.data s.data⟩

/-- Fuel-indexed scan of Go `strings.Replace(s, old, new, -1)` for a
non-empty pattern: at each position, if the pattern matches there, emit
the replacement and skip the pattern's length, else keep the character
and advance by one.  The fuel is instantiated with the length of the
scanned list, which bounds the number of steps. -/
def replGoAux (pat rep : List Char) : Nat → List Char → List Char
  | _, [] => []
  | 0, s => s
  | fuel + 1, c :: cs =>
    if pat.isPrefixOf (c :: cs) then
      rep ++ replGoAux pat rep fuel (cs.drop (pat.length - 1))
    else
      c :: replGoAux pat rep fuel cs

/-- Go `strings.ReplaceAll(s, old, new)` on character lists.  For an
empty pattern Go inserts the replacement at every boundary (the source
never passes an empty pattern); otherwise all non-overlapping
occurrences are replaced left to right. -/
def goReplaceAllL (s pat rep : List Char) : List Char :=
  if pat = [] then rep ++ s.flatMap (fun c => c :: rep)
  else replGoAux pat rep s.length s

/-- Go `strings.ReplaceAll(s, old, new)` on `String`s. -/
def goReplaceAll (s pat rep : String) : String :=
  ⟨goReplaceAllL s.data pat.data rep.data⟩

/-! ### Lemmas about the string primitives -/

theorem goSplitCharAux_no_sep (c : Char) :
    ∀ (l acc : List Char), c ∉ l → goSplitCharAux c l acc = [acc.reverse ++ l]
  | [], acc, _ => by simp [goSplitCharAux]
  | x :: xs, acc, h => by
    have hx : x ≠ c := fun hxc => h (hxc ▸ List.mem_cons_self x xs)
    have hxs : c ∉ xs := fun hc => h (List.mem_cons_of_mem x hc)
    simp [goSplitCharAux, hx, goSplitCharAux_no_sep c xs (x :: acc) hxs]

theorem goSplitCharAux_sep_append (c : Char) :
    ∀ (xs ys acc : List Char),
      goSplitCharAux c (xs ++ c :: ys) acc =
        goSplitCharAux c xs acc ++ goSplitL c ys
  | [], ys, acc => by simp [goSplitCharAux, goSplitL]
  | x :: xs, ys, acc => by
    by_cases hx : x = c <;>
      simp [goSplitCharAux, hx, goSplitCharAux_sep_append c xs ys]

theorem goSplitL_sep_append (c : Char) (xs ys : List Char) :
    goSplitL c (xs ++ c :: ys) = goSplitL c xs ++ goSplitL c ys :=
  goSplitCharAux_sep_append c xs ys []

theorem goSplitL_no_sep (c : Char) (l : List Char) (h : c ∉ l) :
    goSplitL c l = [l] := by
  simpa using goSplitCharAux_no_sep c l [] h

theorem goTrimPrefixL_append (pre rest : List Char) :
    goTrimPrefixL pre (pre ++ rest) = rest := by
  have hp : pre.isPrefixOf (pre ++ rest) = true := by
    rw [List.isPrefixOf_iff_prefix]
    exact List.prefix_append pre rest
  simp [goTrimPrefixL, hp]

theorem replGoAux_single (p r : Char) :
    ∀ (fuel : Nat) (s : List Char), s.length ≤ fuel →
      replGoAux [p] [r] fuel s = s.map fun c => if c = p then r else c
  | _, [], _ => by cases ‹Nat› <;> rfl
  | 0, c :: cs, h => by simp at h
  | fuel + 1, c :: cs, h => by
    have hlen : cs.length ≤ fuel := by simp [List.length_cons] at h; omega
    have ih := replGoAux_single p r fuel cs hlen
    by_cases hc : c = p
    · have hpre : ([p].isPrefixOf (c :: cs)) = true := by
        simp [List.isPrefixOf, hc]
      simp [replGoAux, hpre, hc, ih]
    · have hpre : ([p].isPrefixOf (c :: cs)) = false := by
        simp [List.isPrefixOf]
        exact fun hterm => absurd hterm.symm hc
      simp [replGoAux, hpre, hc, ih]

theorem goReplaceAllL_single (p r : Char) (s : List Char) :
    goReplaceAllL s [p] [r] = s.map fun c => if c = p then r else c := by
  simp [goReplaceAllL, replGoAux_single p r s.length s le_rfl]

/-! ## Data model

Transcribed from the Go types in `src/main.go` (final variant) and the
fields of `cases.TestCase` the source reads. -/

/-- Generic decoded JSON value: the shape of a Go `interface{}` after
`json.Unmarshal`, and of the documents carried by test cases. -/
inductive Doc where
  | null
  | bool (b : Bool)
  | num (n : Int)
  | str (s : String)
  | arr (elems : List Doc)
  | obj (fields : List (String × Doc))

/-- `ResultMap` from the source: one evaluated result, mapping each query
variable to its decoded JSON value. -/
abbrev ResultMap := List (String × Doc)

/-- Opaque handle for an `ast.Term` value inside a query result; only the
engine's `ast.JSON` oracle can interpret it. -/
abbrev TermVal := Nat

/-- One expression of the query body built by `createQuery`: the pair of
the left-hand variable name and the right-hand reference path. -/
abbrev QueryExpr := String × String

/-- One entry of the engine's result set: bindings of variables to terms. -/
abbrev QueryResult := List (String × TermVal)

/-- A Go `panic` value (its message). -/
abbrev GoPanic := String

/-- The part of a parsed policy module (`*ast.Module`) the source
inspects: the package path string and the number of declared rules. -/
structure ParsedModule where
  pkgPath : String
  rules : Nat
deriving DecidableEq

/-- `bundle.ModuleFile` as constructed by `getModuleFiles`: `Path` and
`URL` are both the synthetic key, `Raw` is set only when `includeRaw`. -/
structure ModuleFile where
  path : String
  url : String
  parsed : ParsedModule
  raw : Option String
deriving DecidableEq

/-- The fields of `cases.TestCase` the source reads, plus the `Filename`
stamped by `loadTests`. -/
structure TestCase where
  note : String
  modules : List String
  data? : Option Doc
  input? : Option Doc
  inputTerm? : Option String
  wantError? : Option String
  wantErrorCode? : Option String
  strictError : Bool
  filename : String

/-- The three fields `generate` attaches onto an `ExtendedTestCase`
before the per-file record is marshalled.  `none` models a Go `nil`
field (serialised as JSON `null`). -/
structure CaseAug where
  entryPoints : Option (List String)
  plan : Option Doc
  wantPlanResult : Option ResultMap

/-- An output case: the original test case together with its attached
augmentation, as marshalled into the per-file JSON record. -/
abbrev AugCase := TestCase × CaseAug

/-- How processing of one test case ended (which `continue` fired, or
success). -/
inductive CaseStatus where
  | skippedNoModules
  | failCompile
  | failPlanCount (n : Nat)
  | failEval
  | failResultCount (n : Nat)
  | failUnmarshal
  | failNilPlan
  | success
deriving DecidableEq

/-- Result of processing one test case: the augmentation written back
onto the record, the exit status, and the lines printed to stdout. -/
structure CaseRes where
  aug : CaseAug
  status : CaseStatus
  log : List String

/-- One invocation of the `filepath.Walk` callback: the visited path,
whether it is a directory, and the walk error passed in (if any). -/
structure WalkEntry where
  path : String
  isDir : Bool
  err? : Option String
deriving DecidableEq

/-- The `Test` record: one source file's path and its parsed cases. -/
structure Test where
  filename : String
  cases : List TestCase

/-- The request `generate` hands to the plan compiler: the bundle's
modules, the entrypoints, and the prune-unused flag (`true` in the final
variant). -/
structure CompileReq where
  modules : List ModuleFile
  entrypoints : List String
  pruneUnused : Bool
deriving DecidableEq

/-- The input document handed to the evaluator: a raw term string
(`InputTerm`, preferred) or a structured document (`Input`). -/
inductive EvalInput where
  | term (s : String)
  | doc (d : Doc)

/-- Oracles for everything the source delegates: the OPA engine (module
parsing, plan compilation, query compilation, top-down evaluation,
`ast.JSON`), the Go standard library (file walk/read, JSON marshalling,
directory creation, file write), and the iteration order of the Go map
holding the synthetic module keys (`order`, arbitrary in Go).  The
`marshal` oracle receives exactly what `json.MarshalIndent(t, ...)`
serialises: the augmented case list (the `filename` field is unexported
and not marshalled). -/
structure Env where
  walk : String → List WalkEntry
  read : String → Except String String
  parseTest : String → Except String (List TestCase)
  order : List String → List String
  parse : String → String → Except String ParsedModule
  build : CompileReq → Except String (List String)
  unmarshal : String → Except String Doc
  mustCompile : List (String × String) → Option GoPanic
  compileQuery : List (String × String) → List QueryExpr → Option String
  run : List (String × String) → List QueryExpr → Doc → Option EvalInput → Bool →
        (List QueryResult × Option String)
  astJSON : TermVal → Except String Doc
  marshal : List AugCase → Except String String
  mkdir : String → Option String
  write : String → String → Option String

/-! ## Pipeline (final variant of `src/main.go`) -/

/-- The synthetic module key `mod_i` used by `generate`. -/
def modKey (i : Nat) : String := "mod_" ++ toString i

/-- The key set of the Go map `modules` built by `generate` from
`tc.Modules` (in index order; the map itself is unordered). -/
def canonKeys (n : Nat) : List String := (List.range n).map modKey

/-- The Go map `modules` as a function: value of key `mod_i` is the
`i`-th module source of the case. -/
def caseSrc (tc : TestCase) : String → String := fun k =>
  (((List.range tc.modules.length).map
      (fun i => (modKey i, tc.modules.getD i ""))).lookup k).getD ""

/-- Lexicographic comparison of character lists by code point.  Go's
`sort.Strings` orders by byte-wise comparison of the UTF-8 encoding,
which coincides with code-point order. -/
def strLeb : List Char → List Char → Bool
  | [], _ => true
  | _ :: _, [] => false
  | a :: as, b :: bs =>
    if a.toNat < b.toNat then true
    else if b.toNat < a.toNat then false
    else strLeb as bs

/-- Go string `<=` as used by `sort.Strings`. -/
def goStrLe (a b : String) : Bool := strLeb a.data b.data

/-- `sort.Strings` on the collected map keys (any correct sorting
algorithm produces the same, unique, sorted permutation). -/
def sortStrings (l : List String) : List String :=
  List.insertionSort (fun a b => goStrLe a b = true) l

/-- The per-key loop of `getModuleFiles`, over the already sorted keys:
parse each module (panicking on the first parse error) and append a
`ModuleFile` with `Path = URL = key`. -/
def getModuleFilesSorted (parse : String → String → Except String ParsedModule)
    (src : String → String) (includeRaw : Bool) :
    List String → Except GoPanic (List ModuleFile)
  | [] => .ok []
  | k :: ks =>
    match parse k (src k) with
    | .error e => .error e
    | .ok m =>
      match getModuleFilesSorted parse src includeRaw ks with
      | .error p => .error p
      | .ok rest =>
        .ok (⟨k, k, m, if includeRaw then some (src k) else none⟩ :: rest)

/-- `getModuleFiles`: collect the map's keys, sort them
lexicographically, then parse each key's source in sorted order. -/
def getModuleFiles (parse : String → String → Except String ParsedModule)
    (keys : List String) (src : String → String) (includeRaw : Bool) :
    Except GoPanic (List ModuleFile) :=
  getModuleFilesSorted parse src includeRaw (sortStrings keys)

/-- Middle variant (line 70): derive an entry point by first converting
every `.` to `/`, then stripping the prefix `data/`. -/
def entryPointMid (pkg : String) : String :=
  goTrimPrefix (goReplaceAll pkg "." "/") "data/"

/-- Final variant (line 381): derive an entry point by first stripping
the prefix `data.`, then converting every remaining `.` to `/`. -/
def entryPointFinal (pkg : String) : String :=
  goReplaceAll (goTrimPrefix pkg "data.") "." "/"

/-! ### Log lines printed by the source (Go `fmt.Printf` strings) -/

/-- `"Skipping %s: No modules\n"` -/
def noModulesMsg (tc : TestCase) : String :=
  "Skipping " ++ tc.note ++ ": No modules\n"

/-- `"Skipping %s in %s: No rules\n"` -/
def noRulesMsg (pkg note : String) : String :=
  "Skipping " ++ pkg ++ " in " ++ note ++ ": No rules\n"

/-- `"compile/Skipping %s: %v\n"` -/
def compileFailMsg (note e : String) : String :=
  "compile/Skipping " ++ note ++ ": " ++ e ++ "\n"

/-- `"Unexpected plan count %d for %s\n"` -/
def planCountMsg (n : Nat) (note : String) : String :=
  "Unexpected plan count " ++ toString n ++ " for " ++ note ++ "\n"

/-- `"eval/Skipping %s: %v\n"` -/
def evalFailMsg (note e : String) : String :=
  "eval/Skipping " ++ note ++ ": " ++ e ++ "\n"

/-- `"Unexpected result count %d for %s\n"` -/
def resultCountMsg (n : Nat) (note : String) : String :=
  "Unexpected result count " ++ toString n ++ " for " ++ note ++ "\n"

/-- `"Failed to unmarshal plan: %s\n"` -/
def unmarshalFailMsg (e : String) : String :=
  "Failed to unmarshal plan: " ++ e ++ "\n"

/-- `"Failed to unmarshal plan: nil\n"` -/
def nilPlanMsg : String := "Failed to unmarshal plan: nil\n"

/-- `"Failed to marchal tc to json: %s\n"` (typo as in the source) -/
def marshalFailMsg (e : String) : String :=
  "Failed to marchal tc to json: " ++ e ++ "\n"

/-- `"Failed to write tc: %s\n"` -/
def writeFailMsg (e : String) : String :=
  "Failed to write tc: " ++ e ++ "\n"

/-- The per-module loop of the final variant (lines 374-382): for each
parsed module, if it declares no rules print a notice and skip it,
otherwise append its package path and derived entry point.  Returns
`(packageNames, entryPoints, log)`. -/
def deriveEntryPoints (note : String) :
    List ModuleFile → List String × List String × List String
  | [] => ([], [], [])
  | mf :: rest =>
    let r := deriveEntryPoints note rest
    let pkg := mf.parsed.pkgPath
    if mf.parsed.rules = 0 then
      (r.1, r.2.1, noRulesMsg pkg note :: r.2.2)
    else
      (pkg :: r.1, entryPointFinal pkg :: r.2.1, r.2.2)

/-- Go `plan == nil` after `json.Unmarshal` into an `interface{}`:
true exactly when the decoded value is JSON `null`. -/
def Doc.isNull : Doc → Bool
  | .null => true
  | _ => false

/-! ### The `eval` function (final variant) -/

/-- `createQuery` (final variant): for each package name build the
expression `pkg_with_underscores = pkg`. -/
def createQueryF (pkgs : List String) : List QueryExpr :=
  pkgs.map fun pkg => (goReplaceAll pkg "." "_", pkg)

/-- The Go map `modules` built inside `eval` (`test-i.rego` keys), as an
association list in index order (the engine consumes it as a map). -/
def evalModules (tc : TestCase) : List (String × String) :=
  (List.range tc.modules.length).map
    fun i => ("test-" ++ toString i ++ ".rego", tc.modules.getD i "")

/-- The evaluation store (lines 566-572): `inmem.NewFromObject(*tc.Data)`
when a base data document is supplied, `inmem.New()` (empty object)
otherwise.  The store is represented by its initial contents. -/
def caseStore : Option Doc → Doc
  | some d => d
  | none => Doc.obj []

/-- The input document handed to the evaluator (lines 576-582):
`InputTerm` is preferred; otherwise `Input` when present. -/
def evalInputOf (tc : TestCase) : Option EvalInput :=
  match tc.inputTerm? with
  | some s => some (.term s)
  | none =>
    match tc.input? with
    | some d => some (.doc d)
    | none => none

/-- The inner loop over one query result: decode every bound term with
`ast.JSON`, failing the whole evaluation on the first decode error. -/
def buildResultMap (env : Env) : QueryResult → Except String ResultMap
  | [] => .ok []
  | (k, t) :: rest =>
    match env.astJSON t with
    | .error e => .error e
    | .ok v =>
      match buildResultMap env rest with
      | .error e => .error e
      | .ok r => .ok ((k, v) :: r)

/-- The loop over the result set (lines 600-611). -/
def buildResultSet (env : Env) : List QueryResult → Except String (List ResultMap)
  | [] => .ok []
  | qr :: rest =>
    match buildResultMap env qr with
    | .error e => .error e
    | .ok r =>
      match buildResultSet env rest with
      | .error e => .error e
      | .ok rs => .ok (r :: rs)

/-- `eval` from the point where the query runs, with the store made an
explicit argument (lines 584-613): run the query; propagate the run
error only when the case declares neither a wanted error nor a wanted
error code; reject result sets with more than one entry; decode the
rest. -/
def evalRunGo (env : Env) (tc : TestCase)
    (out : List QueryResult × Option String) : Except String (List ResultMap) :=
  if out.2.isSome ∧ tc.wantErrorCode? = none ∧ tc.wantError? = none then
    .error (out.2.getD "")
  else if 1 < out.1.length then
    .error "ResultSet contains more than one entry"
  else
    buildResultSet env out.1

/-- The query run itself (line 584): hand the compiled query, store,
input and strictness flag to the engine, then filter with `evalRunGo`. -/
def evalRunWith (env : Env) (pkgs : List String) (tc : TestCase) (store : Doc) :
    Except String (List ResultMap) :=
  evalRunGo env tc
    (env.run (evalModules tc) (createQueryF pkgs) store (evalInputOf tc) tc.strictError)

/-- `eval` (final variant, lines 547-614) with the store as an explicit
argument.  `ast.MustCompileModules` panics on a module compile error
(outer `.error`); a query-compile error is returned to the caller
(inner `.error`); otherwise the query is run against the store. -/
def evalTCWith (env : Env) (pkgs : List String) (tc : TestCase) (store : Doc) :
    Except GoPanic (Except String (List ResultMap)) :=
  match env.mustCompile (evalModules tc) with
  | some p => .error p
  | none =>
    match env.compileQuery (evalModules tc) (createQueryF pkgs) with
    | some e => .ok (.error e)
    | none => .ok (evalRunWith env pkgs tc store)

/-- `eval` (final variant): the store is the one built from the case's
base data document (lines 566-572). -/
def evalTC (env : Env) (pkgs : List String) (tc : TestCase) :
    Except GoPanic (Except String (List ResultMap)) :=
  evalTCWith env pkgs tc (caseStore tc.data?)

/-! ### The per-case body of `generate` (final variant, lines 356-434) -/

/-- Last step of the case body (lines 421-433): unmarshal the single
plan module's raw bytes; a decode error or a `nil` plan is a counted
failure, otherwise the case succeeds with the plan attached.
`wpr` is the `want_plan_result` already written onto the record. -/
def processCaseFinish (env : Env) (tc : TestCase) (eps : List String)
    (skips : List String) (p : String) (wpr : Option ResultMap) :
    Except GoPanic CaseRes :=
  match env.unmarshal p with
  | .error e =>
    .ok ⟨⟨some eps, none, wpr⟩, .failUnmarshal, skips ++ [unmarshalFailMsg e]⟩
  | .ok d =>
    if d.isNull then
      .ok ⟨⟨some eps, none, wpr⟩, .failNilPlan, skips ++ [nilPlanMsg]⟩
    else
      .ok ⟨⟨some eps, some d, wpr⟩, .success, skips⟩

/-- Expected-result step (lines 404-419): only when the case declares
neither a wanted error nor a wanted error code is `eval` invoked; an
evaluation error or a result count other than one is a counted failure;
otherwise the single result becomes `want_plan_result`. -/
def processCaseEval (env : Env) (tc : TestCase) (eps pkgs skips : List String)
    (p : String) : Except GoPanic CaseRes :=
  if tc.wantError? = none ∧ tc.wantErrorCode? = none then
    match evalTC env pkgs tc with
    | .error gp => .error gp
    | .ok (.error e) =>
      .ok ⟨⟨some eps, none, none⟩, .failEval, skips ++ [evalFailMsg tc.note e]⟩
    | .ok (.ok rs) =>
      match rs with
      | [r] => processCaseFinish env tc eps skips p (some r)
      | _ =>
        .ok ⟨⟨some eps, none, none⟩, .failResultCount rs.length,
             skips ++ [resultCountMsg rs.length tc.note]⟩
  else
    processCaseFinish env tc eps skips p none

/-- Plan-count check (lines 398-402): any compiled plan count other than
one is a counted failure. -/
def processCasePlans (env : Env) (tc : TestCase) (eps pkgs skips : List String)
    (plans : List String) : Except GoPanic CaseRes :=
  match plans with
  | [p] => processCaseEval env tc eps pkgs skips p
  | _ =>
    .ok ⟨⟨some eps, none, none⟩, .failPlanCount plans.length,
         skips ++ [planCountMsg plans.length tc.note]⟩

/-- Case body once the modules are parsed (lines 367-402): an empty
module list is skipped without touching either counter; otherwise derive
entry points, attach them to the record, and build the plan bundle
(with pruning, as in the final variant); a compile error is a counted
failure. -/
def processCaseBuild (env : Env) (tc : TestCase) (mfs : List ModuleFile)
    (d : List String × List String × List String) : Except GoPanic CaseRes :=
  match env.build ⟨mfs, d.2.1, true⟩ with
  | .error e =>
    .ok ⟨⟨some d.2.1, none, none⟩, .failCompile, d.2.2 ++ [compileFailMsg tc.note e]⟩
  | .ok plans => processCasePlans env tc d.2.1 d.1 d.2.2 plans

/-- Continuation of the case body: with a non-empty module list, derive
package names, entry points and skip notices, then build the bundle. -/
def processCaseModules (env : Env) (tc : TestCase) (mfs : List ModuleFile) :
    Except GoPanic CaseRes :=
  if mfs.length = 0 then
    .ok ⟨⟨none, none, none⟩, .skippedNoModules, [noModulesMsg tc]⟩
  else
    processCaseBuild env tc mfs (deriveEntryPoints tc.note mfs)

/-- The module files of one case: the synthetic `mod_i` key set,
enumerated in the Go map's arbitrary iteration order (`env.order`),
then sorted and parsed by `getModuleFiles`. -/
def caseModFiles (env : Env) (tc : TestCase) : Except GoPanic (List ModuleFile) :=
  getModuleFiles env.parse (env.order (canonKeys tc.modules.length)) (caseSrc tc) false

/-- One iteration of the per-case loop of `generate`. -/
def processCase (env : Env) (tc : TestCase) : Except GoPanic CaseRes :=
  match caseModFiles env tc with
  | .error p => .error p
  | .ok mfs => processCaseModules env tc mfs

/-- Contribution of a case's exit status to the
`(successCount, failureCount)` pair. -/
def caseDelta : CaseStatus → Nat × Nat
  | .skippedNoModules => (0, 0)
  | .success => (1, 0)
  | _ => (0, 1)

/-- The per-case loop over one file's cases: accumulate counter
increments, the augmented records (every case is kept for marshalling,
failed or not), and the log. -/
def processCases (env : Env) :
    List TestCase → Except GoPanic (Nat × Nat × List AugCase × List String)
  | [] => .ok (0, 0, [], [])
  | tc :: rest =>
    match processCase env tc with
    | .error p => .error p
    | .ok r =>
      match processCases env rest with
      | .error p => .error p
      | .ok (s, f, augs, log) =>
        .ok ((caseDelta r.status).1 + s, (caseDelta r.status).2 + f,
             (tc, r.aug) :: augs, r.log ++ log)

/-- Result of processing one source file: counter increments, the
file writes performed (full path and bytes), and the log. -/
structure FileResult where
  successes : Nat
  failures : Nat
  writes : List (String × String)
  log : List String

/-- The destination folder (line 442): the destination root joined with
the second-to-last `/`-separated segment of the source path. -/
def outFolder (dst : String) (t : Test) : String :=
  dst ++ "/" ++
    (goSplitChar '/' t.filename).getD ((goSplitChar '/' t.filename).length - 2) ""

/-- The destination file name (line 443): the last segment of the
source path with every occurrence of `.yaml` replaced by `.json`. -/
def outFileName (t : Test) : String :=
  goReplaceAll ((goSplitChar '/' t.filename).getD
    ((goSplitChar '/' t.filename).length - 1) "") ".yaml" ".json"

/-- The write tail of the per-file step (lines 441-453): a source path
with fewer than two segments makes `tPath[len(tPath)-2]` panic;
`os.MkdirAll` failure panics; a write failure counts once and moves on;
otherwise the marshalled bytes are written to the mirrored path. -/
def processFileWrite (env : Env) (dst : String) (t : Test) (s f : Nat)
    (log : List String) (bytes : String) : Except GoPanic FileResult :=
  if 2 ≤ (goSplitChar '/' t.filename).length then
    match env.mkdir (outFolder dst t) with
    | some e => .error e
    | none =>
      match env.write (outFolder dst t ++ "/" ++ outFileName t) bytes with
      | some e => .ok ⟨s, f + 1, [], log ++ [writeFailMsg e]⟩
      | none => .ok ⟨s, f, [(outFolder dst t ++ "/" ++ outFileName t, bytes)], log⟩
  else
    .error "runtime error: index out of range"

/-- The per-file step: process the cases, then marshal (a failure counts
once for the whole file and skips the write), then write. -/
def processFile (env : Env) (dst : String) (t : Test) : Except GoPanic FileResult :=
  match processCases env t.cases with
  | .error p => .error p
  | .ok (s, f, augs, log) =>
    match env.marshal augs with
    | .error e => .ok ⟨s, f + 1, [], log ++ [marshalFailMsg e]⟩
    | .ok bytes => processFileWrite env dst t s f log bytes

/-- The `filepath.Walk` body of `loadTests` (lines 460-502): a walk
error, read error, or unmarshal error of any file aborts the whole run;
directories are skipped; each loaded case is stamped with its source
file path. -/
def loadWalk (env : Env) : List WalkEntry → Except GoPanic (List Test)
  | [] => .ok []
  | e :: rest =>
    match e.err? with
    | some werr => .error werr
    | none =>
      if e.isDir then loadWalk env rest
      else
        match env.read e.path with
        | .error re => .error (e.path ++ ": " ++ re)
        | .ok bs =>
          match env.parseTest bs with
          | .error ue => .error (e.path ++ ": " ++ ue)
          | .ok cs =>
            match loadWalk env rest with
            | .error p => .error p
            | .ok ts =>
              .ok (⟨e.path, cs.map fun c => { c with filename := e.path }⟩ :: ts)

/-- `loadTests`. -/
def loadTests (env : Env) (dirpath : String) : Except GoPanic (List Test) :=
  loadWalk env (env.walk dirpath)

/-- Aggregate result of a run: final counters, all file writes, and the
log. -/
structure GenResult where
  successes : Nat
  failures : Nat
  writes : List (String × String)
  log : List String

/-- The per-file loop of `generate`. -/
def genFiles (env : Env) (dst : String) : List Test → Except GoPanic GenResult
  | [] => .ok ⟨0, 0, [], []⟩
  | t :: rest =>
    match processFile env dst t with
    | .error p => .error p
    | .ok fr =>
      match genFiles env dst rest with
      | .error p => .error p
      | .ok g =>
        .ok ⟨fr.successes + g.successes, fr.failures + g.failures,
             fr.writes ++ g.writes, fr.log ++ g.log⟩

/-- The final tally line (line 457). -/
def tallyMsg (s f : Nat) : String :=
  "Tests generated: " ++ toString (s + f) ++ "; successes: " ++ toString s ++
    "; failures: " ++ toString f ++ "\n"

/-- `generate` (final variant): load all tests (fatally on loader
errors), process every file, and print the tally. -/
def generate (env : Env) (srcPath dstPath : String) : Except GoPanic GenResult :=
  match loadTests env srcPath with
  | .error p => .error p
  | .ok tests =>
    match genFiles env dstPath tests with
    | .error p => .error p
    | .ok g =>
      .ok ⟨g.successes, g.failures, g.writes,
           "Generating compliance tests\n" :: (g.log ++ [tallyMsg g.successes g.failures])⟩

/-- The argument switch of `main` (lines 332-348): one positional
argument selects the built-in source path, two give source and
destination, anything else panics with the usage message.  (`os.Args`
always contains the program name as its first element.) -/
def mainArgs : List String → Except GoPanic (String × String)
  | [_, dst] => .ok ("opa/test/cases/testdata", dst)
  | [_, src, dst] => .ok (src, dst)
  | args => .error ("Usage: " ++ args.headD "" ++ " [SRC] DST")

/-- Modelled from the spec: `os.MkdirAll` (Go standard library, not part
of this repository) has create-if-missing semantics — it creates the
directory when absent and succeeds without change when it already
exists.  The filesystem is abstracted as the list of existing
directories. -/
def mkdirAllFS (fs : List String) (path : String) : List String :=
  if path ∈ fs then fs else path :: fs

/-! ## Concrete sample environments (used to instantiate the theorems) -/

/-- A minimal test case expected to succeed: one module, no data, no
input, no wanted error. -/
def okCase : TestCase :=
  ⟨"t/case", ["m"], none, none, none, none, none, false, ""⟩

/-- An all-success oracle environment: one walked file, one parsed case,
a module with one rule under `data.example.allow`, a single plan module
that unmarshals to an object, and an evaluation producing a single
result binding `example_allow` to `true`. -/
def okEnv : Env where
  walk := fun _ => [⟨"testdata/group/case.yaml", false, none⟩]
  read := fun _ => .ok "bytes"
  parseTest := fun _ => .ok [okCase]
  order := fun l => l
  parse := fun _ _ => .ok ⟨"data.example.allow", 1⟩
  build := fun _ => .ok ["planraw"]
  unmarshal := fun _ => .ok (.obj [])
  mustCompile := fun _ => none
  compileQuery := fun _ _ => none
  run := fun _ _ _ _ _ => ([[("example_allow", 0)]], none)
  astJSON := fun _ => .ok (.bool true)
  marshal := fun _ => .ok "JSON"
  mkdir := fun _ => none
  write := fun _ _ => none

/-- Test case with two modules, the first of which will parse to a
module with zero rules. -/
def zCase : TestCase :=
  ⟨"t/case", ["m0", "m1"], none, none, none, none, none, false, ""⟩

/-- Environment whose parse oracle maps the first module to a zero-rule
package `data.empty` and the second to `data.example.allow`. -/
def zEnv : Env :=
  { okEnv with
    parseTest := fun _ => .ok [zCase]
    parse := fun k _ =>
      if k = "mod_0" then .ok ⟨"data.empty", 0⟩
      else .ok ⟨"data.example.allow", 1⟩ }

/-! ## Helper lemmas about the entry-point derivation -/

theorem entryPointFinal_data_append (rest : List Char) :
    entryPointFinal ⟨"data.".data ++ rest⟩ =
      ⟨rest.map fun c => if c = '.' then '/' else c⟩ := by
  show goReplaceAll (goTrimPrefix ⟨"data.".data ++ rest⟩ "data.") "." "/" = _
  have h1 : goTrimPrefix ⟨"data.".data ++ rest⟩ "data." = ⟨rest⟩ := by
    show (⟨goTrimPrefixL "data.".data ("data.".data ++ rest)⟩ : String) = ⟨rest⟩
    rw [goTrimPrefixL_append]
  rw [h1]
  show (⟨goReplaceAllL rest ".".data "/".data⟩ : String) = _
  rw [show ".".data = ['.'] from rfl, show "/".data = ['/'] from rfl,
    goReplaceAllL_single]

theorem entryPointMid_data_append (rest : List Char) :
    entryPointMid ⟨"data.".data ++ rest⟩ =
      ⟨rest.map fun c => if c = '.' then '/' else c⟩ := by
  show goTrimPrefix (goReplaceAll ⟨"data.".data ++ rest⟩ "." "/") "data/" = _
  have h1 : goReplaceAll ⟨"data.".data ++ rest⟩ "." "/" =
      ⟨"data/".data ++ rest.map fun c => if c = '.' then '/' else c⟩ := by
    show (⟨goReplaceAllL ("data.".data ++ rest) ".".data "/".data⟩ : String) = _
    rw [show ".".data = ['.'] from rfl, show "/".data = ['/'] from rfl,
      goReplaceAllL_single, List.map_append]
    rfl
  rw [h1]
  show (⟨goTrimPrefixL "data/".data
          ("data/".data ++ rest.map fun c => if c = '.' then '/' else c)⟩ : String) = _
  rw [goTrimPrefixL_append]

theorem deriveEntryPoints_pkgs (note : String) :
    ∀ mfs : List ModuleFile,
      (deriveEntryPoints note mfs).1 =
        (mfs.filter fun mf => !(mf.parsed.rules == 0)).map
          (fun mf => mf.parsed.pkgPath)
  | [] => rfl
  | mf :: rest => by
    by_cases h : mf.parsed.rules = 0 <;>
      simp [deriveEntryPoints, h, deriveEntryPoints_pkgs note rest]

theorem deriveEntryPoints_eps (note : String) :
    ∀ mfs : List ModuleFile,
      (deriveEntryPoints note mfs).2.1 =
        (mfs.filter fun mf => !(mf.parsed.rules == 0)).map
          (fun mf => entryPointFinal mf.parsed.pkgPath)
  | [] => rfl
  | mf :: rest => by
    by_cases h : mf.parsed.rules = 0 <;>
      simp [deriveEntryPoints, h, deriveEntryPoints_eps note rest]

theorem deriveEntryPoints_logs (note : String) :
    ∀ mfs : List ModuleFile,
      (deriveEntryPoints note mfs).2.2 =
        (mfs.filter fun mf => mf.parsed.rules == 0).map
          (fun mf => noRulesMsg mf.parsed.pkgPath note)
  | [] => rfl
  | mf :: rest => by
    by_cases h : mf.parsed.rules = 0 <;>
      simp [deriveEntryPoints, h, deriveEntryPoints_logs note rest]

/-- C10: for every package-path string that begins with the prefix
`data.`, the middle variant's entry-point derivation (replace every `.`
with `/`, then strip the prefix `data/`) and the final variant's (strip
the prefix `data.`, then replace every `.` with `/`) produce the same
entry-point string. -/
theorem entryPoint_mid_eq_final (s : String)
    (h : "data.".data.isPrefixOf s.data = true) :
    entryPointMid s = entryPointFinal s := by
  obtain ⟨rest, hrest⟩ := List.isPrefixOf_iff_prefix.mp h
  have hs : s = ⟨"data.".data ++ rest⟩ := by rw [hrest]
  rw [hs, entryPointMid_data_append, entryPointFinal_data_append]

/-- Witness for C10 at the concrete package path `data.a.b`. -/
theorem entryPoint_mid_eq_final_witness :
    "data.".data.isPrefixOf "data.a.b".data = true ∧
      entryPointMid "data.a.b" = entryPointFinal "data.a.b" :=
  ⟨rfl, entryPoint_mid_eq_final "data.a.b" rfl⟩

/-- C3: the final variant's derived entry point is the module's package
path with the prefix `data.` stripped and every remaining `.` converted
to `/` (so `data.example.allow` yields `example/allow`); a module with
zero declared rules contributes no entry point and only a logged notice,
and such a skip does not make the case fail (the concrete zero-rule run
still succeeds, its log carrying exactly the notice). -/
theorem entryPoint_derivation :
    entryPointFinal "data.example.allow" = "example/allow" ∧
    (∀ rest : List Char,
      entryPointFinal ⟨"data.".data ++ rest⟩ =
        ⟨rest.map fun c => if c = '.' then '/' else c⟩) ∧
    (∀ (note : String) (mfs : List ModuleFile),
      (deriveEntryPoints note mfs).2.1 =
        (mfs.filter fun mf => !(mf.parsed.rules == 0)).map
          (fun mf => entryPointFinal mf.parsed.pkgPath) ∧
      (deriveEntryPoints note mfs).2.2 =
        (mfs.filter fun mf => mf.parsed.rules == 0).map
          (fun mf => noRulesMsg mf.parsed.pkgPath note)) ∧
    processCase zEnv zCase =
      .ok ⟨⟨some ["example/allow"], some (.obj []),
            some [("example_allow", Doc.bool true)]⟩, .success,
           [noRulesMsg "data.empty" "t/case"]⟩ :=
  ⟨rfl, entryPointFinal_data_append,
   fun note mfs => ⟨deriveEntryPoints_eps note mfs, deriveEntryPoints_logs note mfs⟩,
   rfl⟩

/-- A test case carrying a base data document. -/
def dataCase : TestCase := { okCase with data? := some (.num 3) }

/-- A test case that declares a wanted error. -/
def errCase : TestCase := { okCase with wantError? := some "bad" }

/-- Environment whose evaluation-side oracles are sabotaged (the module
compile step would even panic); used to exhibit that they are never
consulted when the case expects an error. -/
def evalJunkEnv : Env :=
  { okEnv with
    mustCompile := fun _ => some "eval oracle consulted"
    compileQuery := fun _ _ => some "qerr"
    run := fun _ _ _ _ _ => ([], some "rerr")
    astJSON := fun _ => .error "jerr" }

/-- Environment whose query run reports an error with an empty result
set. -/
def runErrEnv : Env :=
  { okEnv with run := fun _ _ _ _ _ => ([], some "boom") }

/-- C6: the evaluation store is initialized exactly from the case's base
data document when one is supplied, and is the empty object store when
none is supplied. -/
theorem eval_store_init (env : Env) (pkgs : List String) (tc : TestCase) :
    (∀ d : Doc, tc.data? = some d →
      caseStore tc.data? = d ∧ evalTC env pkgs tc = evalTCWith env pkgs tc d) ∧
    (tc.data? = none →
      caseStore tc.data? = Doc.obj [] ∧
      evalTC env pkgs tc = evalTCWith env pkgs tc (Doc.obj [])) := by
  have he : evalTC env pkgs tc = evalTCWith env pkgs tc (caseStore tc.data?) := rfl
  constructor
  · intro d hd
    rw [he, hd]
    exact ⟨rfl, rfl⟩
  · intro hd
    rw [he, hd]
    exact ⟨rfl, rfl⟩

/-- Witness for C6: with a data document the store is that document;
without one it is the empty object. -/
theorem eval_store_init_witness :
    (dataCase.data? = some (Doc.num 3) ∧
      evalTC okEnv ["data.example.allow"] dataCase =
        evalTCWith okEnv ["data.example.allow"] dataCase (Doc.num 3)) ∧
    (okCase.data? = none ∧
      evalTC okEnv ["data.example.allow"] okCase =
        evalTCWith okEnv ["data.example.allow"] okCase (Doc.obj [])) :=
  ⟨⟨rfl, ((eval_store_init okEnv ["data.example.allow"] dataCase).1
      (Doc.num 3) rfl).2⟩,
   ⟨rfl, ((eval_store_init okEnv ["data.example.allow"] okCase).2 rfl).2⟩⟩

/-- C4: an evaluation error is propagated exactly when the case declares
neither a wanted error nor a wanted error code; when either expectation
is declared the error is swallowed and evaluation proceeds to shape
whatever result sets were produced — the outcome does not mention the
error at all, so nothing is asserted against the expectation.  A
propagated error surfaces as the case's `failEval`, which counts as one
non-fatal failure. -/
theorem eval_error_swallowing (env : Env) (pkgs : List String) (tc : TestCase)
    (store : Doc) (qrs : List QueryResult) (e : String)
    (hrun : env.run (evalModules tc) (createQueryF pkgs) store (evalInputOf tc)
        tc.strictError = (qrs, some e)) :
    (tc.wantError? = none ∧ tc.wantErrorCode? = none →
      evalRunWith env pkgs tc store = .error e) ∧
    (tc.wantError? ≠ none ∨ tc.wantErrorCode? ≠ none →
      evalRunWith env pkgs tc store =
        if 1 < qrs.length then .error "ResultSet contains more than one entry"
        else buildResultSet env qrs) ∧
    (∀ (eps skips : List String) (p : String),
      tc.wantError? = none → tc.wantErrorCode? = none →
      evalTC env pkgs tc = .ok (.error e) →
      processCaseEval env tc eps pkgs skips p =
        .ok ⟨⟨some eps, none, none⟩, .failEval, skips ++ [evalFailMsg tc.note e]⟩ ∧
      caseDelta .failEval = (0, 1)) := by
  refine ⟨?_, ?_, ?_⟩
  · rintro ⟨hw, hwc⟩
    unfold evalRunWith
    rw [hrun]
    simp [evalRunGo, hw, hwc]
  · intro h
    unfold evalRunWith
    rw [hrun]
    have hcond : ¬((some e).isSome ∧ tc.wantErrorCode? = none ∧ tc.wantError? = none) := by
      rcases h with h | h
      · exact fun hc => h hc.2.2
      · exact fun hc => h hc.2.1
    unfold evalRunGo
    rw [if_neg hcond]
  · intro eps skips p hw hwc heval
    refine ⟨?_, rfl⟩
    unfold processCaseEval
    rw [if_pos ⟨hw, hwc⟩, heval]

/-- Witness for C4: with a concrete erroring run, the error is
propagated for a case without expectations and swallowed for a case
with a wanted error. -/
theorem eval_error_swallowing_witness :
    (okCase.wantError? = none ∧ okCase.wantErrorCode? = none ∧
      evalRunWith runErrEnv ["data.example.allow"] okCase (Doc.obj []) =
        .error "boom") ∧
    (errCase.wantError? ≠ none ∧
      evalRunWith runErrEnv ["data.example.allow"] errCase (Doc.obj []) =
        buildResultSet runErrEnv []) :=
  And.intro
    (And.intro rfl (And.intro rfl
      ((eval_error_swallowing runErrEnv ["data.example.allow"] okCase (Doc.obj [])
          [] "boom" rfl).1 ⟨rfl, rfl⟩)))
    (And.intro (fun h => nomatch h)
      ((eval_error_swallowing runErrEnv ["data.example.allow"] errCase (Doc.obj [])
          [] "boom" rfl).2.1 (Or.inl fun h => nomatch h)))

/-- When the case expects an error, processing never consults the
evaluation oracles: any two environments agreeing on parsing, key
order, plan building and plan unmarshalling process the case
identically. -/
theorem processCase_no_eval (tc : TestCase)
    (hcond : ¬(tc.wantError? = none ∧ tc.wantErrorCode? = none))
    (env env' : Env) (hp : env'.parse = env.parse) (ho : env'.order = env.order)
    (hb : env'.build = env.build) (hu : env'.unmarshal = env.unmarshal) :
    processCase env tc = processCase env' tc := by
  have hmf : caseModFiles env' tc = caseModFiles env tc := by
    unfold caseModFiles getModuleFiles
    rw [hp, ho]
  unfold processCase
  rw [hmf]
  cases hm : caseModFiles env tc with
  | error p => rfl
  | ok mfs =>
    show processCaseModules env tc mfs = processCaseModules env' tc mfs
    unfold processCaseModules
    by_cases hlen : mfs.length = 0
    · rw [if_pos hlen, if_pos hlen]
    · rw [if_neg hlen, if_neg hlen]
      unfold processCaseBuild
      rw [hb]
      cases hbv : env.build ⟨mfs, (deriveEntryPoints tc.note mfs).2.1, true⟩ with
      | error e => rfl
      | ok plans =>
        show processCasePlans env tc _ _ _ plans = processCasePlans env' tc _ _ _ plans
        unfold processCasePlans
        match plans with
        | [] => rfl
        | p :: q :: rest => rfl
        | [p] =>
          show processCaseEval env tc _ _ _ p = processCaseEval env' tc _ _ _ p
          unfold processCaseEval
          rw [if_neg hcond, if_neg hcond]
          show processCaseFinish env tc _ _ p none = processCaseFinish env' tc _ _ p none
          unfold processCaseFinish
          rw [hu]

/-- When the case expects an error, the emitted record's
`want_plan_result` field is never set. -/
theorem processCase_wpr_none (tc : TestCase)
    (hcond : ¬(tc.wantError? = none ∧ tc.wantErrorCode? = none)) (env : Env)
    (r : CaseRes) (h : processCase env tc = .ok r) :
    r.aug.wantPlanResult = none := by
  unfold processCase at h
  cases hm : caseModFiles env tc with
  | error p => rw [hm] at h; exact (Except.noConfusion h)
  | ok mfs =>
    rw [hm] at h
    dsimp only at h
    show r.aug.wantPlanResult = none
    unfold processCaseModules at h
    by_cases hlen : mfs.length = 0
    · rw [if_pos hlen] at h
      have := Except.ok.inj h
      subst this
      rfl
    · rw [if_neg hlen] at h
      unfold processCaseBuild at h
      cases hbv : env.build ⟨mfs, (deriveEntryPoints tc.note mfs).2.1, true⟩ with
      | error e =>
        rw [hbv] at h
        have := Except.ok.inj h
        subst this
        rfl
      | ok plans =>
        rw [hbv] at h
        match plans with
        | [] =>
          have := Except.ok.inj h
          subst this
          rfl
        | p :: q :: rest =>
          have := Except.ok.inj h
          subst this
          rfl
        | [p] =>
          dsimp only at h
          unfold processCasePlans at h
          dsimp only at h
          unfold processCaseEval at h
          rw [if_neg hcond] at h
          unfold processCaseFinish at h
          cases hum : env.unmarshal p with
          | error e =>
            rw [hum] at h
            have := Except.ok.inj h
            subst this
            rfl
          | ok d =>
            rw [hum] at h
            dsimp only at h
            by_cases hnull : d.isNull
            · rw [if_pos hnull] at h
              have := Except.ok.inj h
              subst this
              rfl
            · rw [if_neg hnull] at h
              have := Except.ok.inj h
              subst this
              rfl

/-- When the case expects an error and the compile stage produces its
single plan module that decodes to a non-nil value, the case succeeds
with the plan attached and no `want_plan_result`. -/
theorem processCase_wanted_error_success (tc : TestCase)
    (hcond : ¬(tc.wantError? = none ∧ tc.wantErrorCode? = none)) (env : Env)
    (mfs : List ModuleFile) (hm : caseModFiles env tc = .ok mfs)
    (hne : ¬ mfs.length = 0) (p : String)
    (hb : env.build ⟨mfs, (deriveEntryPoints tc.note mfs).2.1, true⟩ = .ok [p])
    (d : Doc) (hu : env.unmarshal p = .ok d) (hnull : d.isNull = false) :
    processCase env tc =
      .ok ⟨⟨some (deriveEntryPoints tc.note mfs).2.1, some d, none⟩, .success,
           (deriveEntryPoints tc.note mfs).2.2⟩ := by
  unfold processCase
  rw [hm]
  show processCaseModules env tc mfs = _
  unfold processCaseModules
  rw [if_neg hne]
  unfold processCaseBuild
  rw [hb]
  show processCaseEval env tc _ _ _ p = _
  unfold processCaseEval
  rw [if_neg hcond]
  show processCaseFinish env tc _ _ p none = _
  unfold processCaseFinish
  rw [hu]
  dsimp only
  rw [hnull]
  rfl

/-- C2: for a test case declaring a wanted error or wanted error code,
no expected-result evaluation is performed (processing is unchanged
under arbitrary replacement of the evaluation oracles), the output
record's `want_plan_result` field stays absent, and the `plan` field is
still populated when compilation succeeded (one plan module decoding to
a non-nil value). -/
theorem wanted_error_no_eval (tc : TestCase)
    (hw : tc.wantError? ≠ none ∨ tc.wantErrorCode? ≠ none) :
    (∀ env env' : Env, env'.parse = env.parse → env'.order = env.order →
      env'.build = env.build → env'.unmarshal = env.unmarshal →
      processCase env tc = processCase env' tc) ∧
    (∀ (env : Env) (r : CaseRes), processCase env tc = .ok r →
      r.aug.wantPlanResult = none) ∧
    (∀ (env : Env) (mfs : List ModuleFile) (p : String) (d : Doc),
      caseModFiles env tc = .ok mfs → ¬ mfs.length = 0 →
      env.build ⟨mfs, (deriveEntryPoints tc.note mfs).2.1, true⟩ = .ok [p] →
      env.unmarshal p = .ok d → d.isNull = false →
      processCase env tc =
        .ok ⟨⟨some (deriveEntryPoints tc.note mfs).2.1, some d, none⟩, .success,
             (deriveEntryPoints tc.note mfs).2.2⟩) := by
  have hcond : ¬(tc.wantError? = none ∧ tc.wantErrorCode? = none) := by
    rcases hw with h | h
    · exact fun hc => h hc.1
    · exact fun hc => h hc.2
  exact ⟨fun env env' => processCase_no_eval tc hcond env env',
         fun env r => processCase_wpr_none tc hcond env r,
         fun env mfs p d hm hne hb hu hnull =>
           processCase_wanted_error_success tc hcond env mfs hm hne p hb d hu hnull⟩

/-- Witness for C2 on the concrete environments: the sabotaged
evaluation oracles change nothing, `want_plan_result` stays absent, and
the successful compile still attaches the plan. -/
theorem wanted_error_no_eval_witness :
    processCase okEnv errCase = processCase evalJunkEnv errCase ∧
    (∀ r : CaseRes, processCase okEnv errCase = .ok r →
      r.aug.wantPlanResult = none) ∧
    processCase okEnv errCase =
      .ok ⟨⟨some ["example/allow"], some (.obj []), none⟩, .success, []⟩ :=
  And.intro
    ((wanted_error_no_eval errCase (Or.inl fun h => nomatch h)).1
      okEnv evalJunkEnv rfl rfl rfl rfl)
    (And.intro
      (fun r => (wanted_error_no_eval errCase (Or.inl fun h => nomatch h)).2.1 okEnv r)
      ((wanted_error_no_eval errCase (Or.inl fun h => nomatch h)).2.2
        okEnv [⟨"mod_0", "mod_0", ⟨"data.example.allow", 1⟩, none⟩] "planraw"
        (.obj []) rfl (by decide) rfl rfl rfl))

/-- If every case of a list processes without a Go panic, the whole
per-case loop completes (each failure only counts and moves on). -/
theorem processCases_ok_of_cases_ok (env : Env) :
    ∀ cs : List TestCase, (∀ tc ∈ cs, ∃ r, processCase env tc = .ok r) →
      ∃ out, processCases env cs = .ok out
  | [], _ => ⟨(0, 0, [], []), rfl⟩
  | tc :: rest, h => by
    obtain ⟨r, hr⟩ := h tc (List.mem_cons_self tc rest)
    obtain ⟨out, hout⟩ := processCases_ok_of_cases_ok env rest
      (fun tc' htc' => h tc' (List.mem_cons_of_mem tc htc'))
    obtain ⟨s, f, augs, log⟩ := out
    refine ⟨((caseDelta r.status).1 + s, (caseDelta r.status).2 + f,
             (tc, r.aug) :: augs, r.log ++ log), ?_⟩
    unfold processCases
    rw [hr, hout]

/-- Environment whose plan compiler yields zero plan modules. -/
def planlessEnv : Env := { okEnv with build := fun _ => .ok [] }

/-- Environment whose query run yields zero result sets (and no error). -/
def resultlessEnv : Env :=
  { okEnv with run := fun _ _ _ _ _ => ([], none) }

/-- C1: for a case expected to succeed (no wanted error), success
requires exactly one compiled plan module and exactly one evaluated
result set; any other plan count or result count is a counted failure
(`.ok`, never a panic) that skips the case, and a loop of panic-free
cases always runs to completion. -/
theorem success_requires_single_plan_and_result (env : Env) (tc : TestCase)
    (hw : tc.wantError? = none) (hwc : tc.wantErrorCode? = none)
    (mfs : List ModuleFile) (hm : caseModFiles env tc = .ok mfs)
    (hne : ¬ mfs.length = 0) (plans : List String)
    (hb : env.build ⟨mfs, (deriveEntryPoints tc.note mfs).2.1, true⟩ = .ok plans) :
    (plans.length ≠ 1 →
      processCase env tc =
        .ok ⟨⟨some (deriveEntryPoints tc.note mfs).2.1, none, none⟩,
             .failPlanCount plans.length,
             (deriveEntryPoints tc.note mfs).2.2 ++ [planCountMsg plans.length tc.note]⟩ ∧
      caseDelta (.failPlanCount plans.length) = (0, 1)) ∧
    (∀ (p : String) (rs : List ResultMap),
      plans = [p] →
      evalTC env (deriveEntryPoints tc.note mfs).1 tc = .ok (.ok rs) →
      rs.length ≠ 1 →
      processCase env tc =
        .ok ⟨⟨some (deriveEntryPoints tc.note mfs).2.1, none, none⟩,
             .failResultCount rs.length,
             (deriveEntryPoints tc.note mfs).2.2 ++ [resultCountMsg rs.length tc.note]⟩ ∧
      caseDelta (.failResultCount rs.length) = (0, 1)) ∧
    (∀ r : CaseRes, processCase env tc = .ok r → r.status = .success →
      plans.length = 1 ∧
      ∃ rs : List ResultMap,
        evalTC env (deriveEntryPoints tc.note mfs).1 tc = .ok (.ok rs) ∧
        rs.length = 1) ∧
    (∀ cs : List TestCase,
      (∀ tc' ∈ cs, ∃ r, processCase env tc' = .ok r) →
      ∃ out, processCases env cs = .ok out) := by
  refine ⟨?_, ?_, ?_, processCases_ok_of_cases_ok env⟩
  · intro hlen1
    refine ⟨?_, rfl⟩
    unfold processCase
    rw [hm]
    show processCaseModules env tc mfs = _
    unfold processCaseModules
    rw [if_neg hne]
    unfold processCaseBuild
    rw [hb]
    match plans with
    | [] => rfl
    | [p] => exact absurd rfl hlen1
    | p :: q :: rest => rfl
  · intro p rs hp heval hrs1
    subst hp
    refine ⟨?_, rfl⟩
    unfold processCase
    rw [hm]
    show processCaseModules env tc mfs = _
    unfold processCaseModules
    rw [if_neg hne]
    unfold processCaseBuild
    rw [hb]
    show processCaseEval env tc _ _ _ p = _
    unfold processCaseEval
    rw [if_pos ⟨hw, hwc⟩, heval]
    match rs with
    | [] => rfl
    | [r1] => exact absurd rfl hrs1
    | r1 :: r2 :: rest => rfl
  · intro r h hst
    unfold processCase at h
    rw [hm] at h
    dsimp only at h
    unfold processCaseModules at h
    rw [if_neg hne] at h
    unfold processCaseBuild at h
    rw [hb] at h
    match plans with
    | [] =>
      have := Except.ok.inj h
      subst this
      exact (CaseStatus.noConfusion hst)
    | p :: q :: rest =>
      have := Except.ok.inj h
      subst this
      exact (CaseStatus.noConfusion hst)
    | [p] =>
      refine ⟨rfl, ?_⟩
      dsimp only at h
      unfold processCasePlans at h
      dsimp only at h
      unfold processCaseEval at h
      rw [if_pos ⟨hw, hwc⟩] at h
      cases he : evalTC env (deriveEntryPoints tc.note mfs).1 tc with
      | error gp =>
        rw [he] at h
        exact (Except.noConfusion h)
      | ok inner =>
        rw [he] at h
        cases inner with
        | error e =>
          have := Except.ok.inj h
          subst this
          exact (CaseStatus.noConfusion hst)
        | ok rs =>
          dsimp only at h
          match rs with
          | [] =>
            have := Except.ok.inj h
            subst this
            exact (CaseStatus.noConfusion hst)
          | r1 :: r2 :: rest =>
            have := Except.ok.inj h
            subst this
            exact (CaseStatus.noConfusion hst)
          | [r1] => exact ⟨[r1], rfl, rfl⟩

/-- Witness for C1: zero plan modules and zero result sets each produce
the counted failure on the concrete environments. -/
theorem success_requires_single_plan_and_result_witness :
    (processCase planlessEnv okCase =
      .ok ⟨⟨some ["example/allow"], none, none⟩, .failPlanCount 0,
           [planCountMsg 0 "t/case"]⟩ ∧
      caseDelta (.failPlanCount 0) = (0, 1)) ∧
    (processCase resultlessEnv okCase =
      .ok ⟨⟨some ["example/allow"], none, none⟩, .failResultCount 0,
           [resultCountMsg 0 "t/case"]⟩ ∧
      caseDelta (.failResultCount 0) = (0, 1)) :=
  ⟨(success_requires_single_plan_and_result planlessEnv okCase rfl rfl
      [⟨"mod_0", "mod_0", ⟨"data.example.allow", 1⟩, none⟩] rfl (by decide)
      [] rfl).1 (by decide),
   (success_requires_single_plan_and_result resultlessEnv okCase rfl rfl
      [⟨"mod_0", "mod_0", ⟨"data.example.allow", 1⟩, none⟩] rfl (by decide)
      ["planraw"] rfl).2.1 "planraw" [] rfl rfl (by decide)⟩

/-- Test case with an empty module list. -/
def noModCase : TestCase := { okCase with modules := [] }

/-- Environment loading a single file holding a single empty-module
case. -/
def noModEnv : Env := { okEnv with parseTest := fun _ => .ok [noModCase] }

/-- `okCase` as stamped by the loader with its source file path. -/
def stampedOkCase : TestCase :=
  { okCase with filename := "testdata/group/case.yaml" }

/-- The loaded `Test` record for the walked sample file. -/
def okTest : Test := ⟨"testdata/group/case.yaml", [stampedOkCase]⟩

/-- The augmented output record produced for `okTest` by `okEnv`. -/
def okAugs : List AugCase :=
  [(stampedOkCase,
    ⟨some ["example/allow"], some (.obj []),
     some [("example_allow", Doc.bool true)]⟩)]

/-- Environment whose per-file JSON marshalling fails. -/
def marshalFailEnv : Env := { okEnv with marshal := fun _ => .error "merr" }

/-- Environment whose file write fails. -/
def writeFailEnv : Env := { okEnv with write := fun _ _ => some "werr" }

/-- C9: the printed tally's total need not equal the number of loaded
cases: a case with an empty module list is skipped with a log message
and increments neither counter, while a per-file marshal or write
failure increments the failure counter once beyond the per-case counts;
concretely, `noModEnv` loads one case but tallies a total of zero. -/
theorem tally_not_case_count :
    (∀ (env : Env) (tc : TestCase), tc.modules = [] → env.order [] = [] →
      processCase env tc =
        .ok ⟨⟨none, none, none⟩, .skippedNoModules, [noModulesMsg tc]⟩ ∧
      caseDelta .skippedNoModules = (0, 0)) ∧
    (∀ (env : Env) (dst : String) (t : Test) (s f : Nat)
        (augs : List AugCase) (log : List String) (e : String),
      processCases env t.cases = .ok (s, f, augs, log) →
      env.marshal augs = .error e →
      processFile env dst t = .ok ⟨s, f + 1, [], log ++ [marshalFailMsg e]⟩) ∧
    (∀ (env : Env) (dst : String) (t : Test) (s f : Nat)
        (augs : List AugCase) (log : List String) (bytes e : String),
      processCases env t.cases = .ok (s, f, augs, log) →
      env.marshal augs = .ok bytes →
      2 ≤ (goSplitChar '/' t.filename).length →
      env.mkdir (outFolder dst t) = none →
      env.write (outFolder dst t ++ "/" ++ outFileName t) bytes = some e →
      processFile env dst t = .ok ⟨s, f + 1, [], log ++ [writeFailMsg e]⟩) ∧
    ((loadTests noModEnv "src").map
        (fun ts => (ts.map fun t => t.cases.length).sum) = .ok 1 ∧
      (generate noModEnv "src" "out").map
        (fun g => g.successes + g.failures) = .ok 0 ∧
      (0 : Nat) ≠ 1) := by
  refine ⟨?_, ?_, ?_, ?_⟩
  · intro env tc hmod hord
    refine ⟨?_, rfl⟩
    have hkeys : canonKeys tc.modules.length = [] := by rw [hmod]; rfl
    have hcm : caseModFiles env tc = .ok [] := by
      unfold caseModFiles getModuleFiles
      rw [hkeys, hord]
      rfl
    unfold processCase
    rw [hcm]
    rfl
  · intro env dst t s f augs log e hc hmar
    unfold processFile
    rw [hc]
    dsimp only
    rw [hmar]
  · intro env dst t s f augs log bytes e hc hmar hseg hmk hwr
    unfold processFile
    rw [hc]
    dsimp only
    rw [hmar]
    dsimp only
    unfold processFileWrite
    rw [if_pos hseg, hmk]
    dsimp only
    rw [hwr]
  · exact ⟨rfl, rfl, by decide⟩

/-- Witness for C9 on the concrete environments: the skip, the marshal
failure and the write failure each behave as stated. -/
theorem tally_not_case_count_witness :
    processCase okEnv noModCase =
      .ok ⟨⟨none, none, none⟩, .skippedNoModules, [noModulesMsg noModCase]⟩ ∧
    processFile marshalFailEnv "out" okTest =
      .ok ⟨1, 1, [], [marshalFailMsg "merr"]⟩ ∧
    processFile writeFailEnv "out" okTest =
      .ok ⟨1, 1, [], [writeFailMsg "werr"]⟩ :=
  ⟨(tally_not_case_count.1 okEnv noModCase rfl rfl).1,
   tally_not_case_count.2.1 marshalFailEnv "out" okTest 1 0 okAugs [] "merr" rfl rfl,
   tally_not_case_count.2.2.1 writeFailEnv "out" okTest 1 0 okAugs [] "JSON"
     "werr" rfl rfl (by decide) rfl rfl⟩

/-- Environment whose policy-module parse oracle fails. -/
def parseFailEnv : Env := { okEnv with parse := fun _ _ => .error "perr" }

/-- Environment whose plan compiler fails. -/
def compileFailEnv : Env := { okEnv with build := fun _ => .error "cerr" }

/-- Environment whose directory creation fails. -/
def mkdirFailEnv : Env := { okEnv with mkdir := fun _ => some "mkerr" }

/-- Environment whose test-fixture deserialization fails. -/
def badYamlEnv : Env := { okEnv with parseTest := fun _ => .error "yaml: bad" }

/-- Environment whose plan unmarshalling fails. -/
def unmarshalFailEnv : Env := { okEnv with unmarshal := fun _ => .error "uerr" }

/-- Environment whose per-file JSON marshalling fails (second sample,
for the severity-split witness). -/
def marshalFailEnv2 : Env := { okEnv with marshal := fun _ => .error "m2" }

/-- Environment whose file write fails (second sample, for the
severity-split witness). -/
def writeFailEnv2 : Env := { okEnv with write := fun _ _ => some "w2" }

/-- C5: exactly two error severities.  Fatal (a `GoPanic` that aborts
the run): a bad command-line argument count, a malformed test fixture
file, an unparsable policy module, and a directory-creation failure.
Non-fatal (logged, counted once, after which the loop continues): a
compile failure, an unexpected plan count, an unexpected result count,
a plan-unmarshal failure, a per-file JSON marshal failure and a file
write failure; the continuation equations show each such outcome
contributes exactly its one increment and the remaining cases and files
are still processed. -/
theorem error_severity_split :
    (∀ args : List String, args.length ≠ 2 → args.length ≠ 3 →
      ∃ msg, mainArgs args = .error msg) ∧
    (∀ (env : Env) (dirpath dst : String) (e : WalkEntry)
        (rest : List WalkEntry) (bs m : String),
      env.walk dirpath = e :: rest → e.err? = none → e.isDir = false →
      env.read e.path = .ok bs → env.parseTest bs = .error m →
      generate env dirpath dst = .error (e.path ++ ": " ++ m)) ∧
    (∀ (parse : String → String → Except String ParsedModule)
        (src : String → String) (inc : Bool) (k : String) (ks : List String)
        (m : String),
      parse k (src k) = .error m →
      getModuleFilesSorted parse src inc (k :: ks) = .error m) ∧
    (∀ (env : Env) (tc : TestCase) (p : GoPanic),
      caseModFiles env tc = .error p → processCase env tc = .error p) ∧
    (∀ (env : Env) (tc : TestCase) (rest : List TestCase) (p : GoPanic),
      processCase env tc = .error p → processCases env (tc :: rest) = .error p) ∧
    (∀ (env : Env) (dst : String) (t : Test) (p : GoPanic),
      processCases env t.cases = .error p → processFile env dst t = .error p) ∧
    (∀ (env : Env) (dst : String) (t : Test) (ts : List Test) (p : GoPanic),
      processFile env dst t = .error p → genFiles env dst (t :: ts) = .error p) ∧
    (∀ (env : Env) (src dst : String) (tests : List Test) (p : GoPanic),
      loadTests env src = .ok tests → genFiles env dst tests = .error p →
      generate env src dst = .error p) ∧
    (∀ (env : Env) (dst : String) (t : Test) (s f : Nat)
        (augs : List AugCase) (log : List String) (bytes e : String),
      processCases env t.cases = .ok (s, f, augs, log) →
      env.marshal augs = .ok bytes →
      2 ≤ (goSplitChar '/' t.filename).length →
      env.mkdir (outFolder dst t) = some e →
      processFile env dst t = .error e) ∧
    (∀ (env : Env) (tc : TestCase) (mfs : List ModuleFile) (e : String),
      caseModFiles env tc = .ok mfs → ¬ mfs.length = 0 →
      env.build ⟨mfs, (deriveEntryPoints tc.note mfs).2.1, true⟩ = .error e →
      processCase env tc =
        .ok ⟨⟨some (deriveEntryPoints tc.note mfs).2.1, none, none⟩, .failCompile,
             (deriveEntryPoints tc.note mfs).2.2 ++ [compileFailMsg tc.note e]⟩ ∧
      caseDelta .failCompile = (0, 1)) ∧
    (∀ (env : Env) (tc : TestCase) (eps pkgs skips : List String)
        (plans : List String),
      plans.length ≠ 1 →
      processCasePlans env tc eps pkgs skips plans =
        .ok ⟨⟨some eps, none, none⟩, .failPlanCount plans.length,
             skips ++ [planCountMsg plans.length tc.note]⟩ ∧
      caseDelta (.failPlanCount plans.length) = (0, 1)) ∧
    (∀ (env : Env) (tc : TestCase) (eps skips : List String) (p : String)
        (wpr : Option ResultMap) (e : String),
      env.unmarshal p = .error e →
      processCaseFinish env tc eps skips p wpr =
        .ok ⟨⟨some eps, none, wpr⟩, .failUnmarshal, skips ++ [unmarshalFailMsg e]⟩ ∧
      caseDelta .failUnmarshal = (0, 1)) ∧
    (∀ (env : Env) (tc : TestCase) (eps pkgs skips : List String) (p : String)
        (rs : List ResultMap),
      tc.wantError? = none → tc.wantErrorCode? = none →
      evalTC env pkgs tc = .ok (.ok rs) → rs.length ≠ 1 →
      processCaseEval env tc eps pkgs skips p =
        .ok ⟨⟨some eps, none, none⟩, .failResultCount rs.length,
             skips ++ [resultCountMsg rs.length tc.note]⟩ ∧
      caseDelta (.failResultCount rs.length) = (0, 1)) ∧
    (∀ (env : Env) (dst : String) (t : Test) (s f : Nat)
        (augs : List AugCase) (log : List String) (e : String),
      processCases env t.cases = .ok (s, f, augs, log) →
      env.marshal augs = .error e →
      processFile env dst t = .ok ⟨s, f + 1, [], log ++ [marshalFailMsg e]⟩) ∧
    (∀ (env : Env) (dst : String) (t : Test) (s f : Nat)
        (augs : List AugCase) (log : List String) (bytes e : String),
      processCases env t.cases = .ok (s, f, augs, log) →
      env.marshal augs = .ok bytes →
      2 ≤ (goSplitChar '/' t.filename).length →
      env.mkdir (outFolder dst t) = none →
      env.write (outFolder dst t ++ "/" ++ outFileName t) bytes = some e →
      processFile env dst t = .ok ⟨s, f + 1, [], log ++ [writeFailMsg e]⟩) ∧
    (∀ (env : Env) (tc : TestCase) (rest : List TestCase) (r : CaseRes)
        (s f : Nat) (augs : List AugCase) (log : List String),
      processCase env tc = .ok r → processCases env rest = .ok (s, f, augs, log) →
      processCases env (tc :: rest) =
        .ok ((caseDelta r.status).1 + s, (caseDelta r.status).2 + f,
             (tc, r.aug) :: augs, r.log ++ log)) ∧
    (∀ (env : Env) (dst : String) (t : Test) (ts : List Test)
        (fr : FileResult) (g : GenResult),
      processFile env dst t = .ok fr → genFiles env dst ts = .ok g →
      genFiles env dst (t :: ts) =
        .ok ⟨fr.successes + g.successes, fr.failures + g.failures,
             fr.writes ++ g.writes, fr.log ++ g.log⟩) := by
  refine ⟨?_, ?_, ?_, ?_, ?_, ?_, ?_, ?_, ?_, ?_, ?_, ?_, ?_, ?_, ?_, ?_, ?_⟩
  · intro args h2 h3
    match args with
    | [] => exact ⟨_, rfl⟩
    | [a] => exact ⟨_, rfl⟩
    | [a, b] => exact absurd rfl h2
    | [a, b, c] => exact absurd rfl h3
    | a :: b :: c :: d :: rest => exact ⟨_, rfl⟩
  · intro env dirpath dst e rest bs m hwalk herr hdir hread hparse
    have hdir' : ¬ e.isDir = true := by rw [hdir]; exact fun h => nomatch h
    unfold generate loadTests
    rw [hwalk]
    unfold loadWalk
    rw [herr]
    dsimp only
    rw [if_neg hdir', hread]
    dsimp only
    rw [hparse]
  · intro parse src inc k ks m hp
    unfold getModuleFilesSorted
    rw [hp]
  · intro env tc p hp
    unfold processCase
    rw [hp]
  · intro env tc rest p hp
    unfold processCases
    rw [hp]
  · intro env dst t p hp
    unfold processFile
    rw [hp]
  · intro env dst t ts p hp
    unfold genFiles
    rw [hp]
  · intro env src dst tests p hl hg
    unfold generate
    rw [hl]
    dsimp only
    rw [hg]
  · intro env dst t s f augs log bytes e hc hmar hseg hmk
    unfold processFile
    rw [hc]
    dsimp only
    rw [hmar]
    dsimp only
    unfold processFileWrite
    rw [if_pos hseg, hmk]
  · intro env tc mfs e hm hne hb
    refine ⟨?_, rfl⟩
    unfold processCase
    rw [hm]
    show processCaseModules env tc mfs = _
    unfold processCaseModules
    rw [if_neg hne]
    unfold processCaseBuild
    rw [hb]
  · intro env tc eps pkgs skips plans hlen
    refine ⟨?_, rfl⟩
    unfold processCasePlans
    match plans with
    | [] => rfl
    | [p] => exact absurd rfl hlen
    | p :: q :: rest => rfl
  · intro env tc eps skips p wpr e hu
    refine ⟨?_, rfl⟩
    unfold processCaseFinish
    rw [hu]
  · intro env tc eps pkgs skips p rs hw hwc heval hrs
    refine ⟨?_, rfl⟩
    unfold processCaseEval
    rw [if_pos ⟨hw, hwc⟩, heval]
    match rs with
    | [] => rfl
    | [r1] => exact absurd rfl hrs
    | r1 :: r2 :: rest => rfl
  · intro env dst t s f augs log e hc hmar
    unfold processFile
    rw [hc]
    dsimp only
    rw [hmar]
  · intro env dst t s f augs log bytes e hc hmar hseg hmk hwr
    unfold processFile
    rw [hc]
    dsimp only
    rw [hmar]
    dsimp only
    unfold processFileWrite
    rw [if_pos hseg, hmk]
    dsimp only
    rw [hwr]
  · intro env tc rest r s f augs log hr hrest
    unfold processCases
    rw [hr, hrest]
  · intro env dst t ts fr g ht hts
    unfold genFiles
    rw [ht, hts]

/-- Witness for C5: each severity exhibited on the concrete
environments, including the result-count, per-file marshal, and file
write failures. -/
theorem error_severity_split_witness :
    (∃ msg, mainArgs ["prog"] = .error msg) ∧
    generate badYamlEnv "src" "out" =
      .error "testdata/group/case.yaml: yaml: bad" ∧
    processCase parseFailEnv okCase = .error "perr" ∧
    processFile mkdirFailEnv "out" okTest = .error "mkerr" ∧
    processCase compileFailEnv okCase =
      .ok ⟨⟨some ["example/allow"], none, none⟩, .failCompile,
           [compileFailMsg "t/case" "cerr"]⟩ ∧
    processCasePlans okEnv okCase ["example/allow"] ["data.example.allow"] [] [] =
      .ok ⟨⟨some ["example/allow"], none, none⟩, .failPlanCount 0,
           [planCountMsg 0 "t/case"]⟩ ∧
    processCaseFinish unmarshalFailEnv okCase ["example/allow"] [] "planraw" none =
      .ok ⟨⟨some ["example/allow"], none, none⟩, .failUnmarshal,
           [unmarshalFailMsg "uerr"]⟩ ∧
    processCaseEval resultlessEnv okCase ["example/allow"] ["data.example.allow"]
        [] "planraw" =
      .ok ⟨⟨some ["example/allow"], none, none⟩, .failResultCount 0,
           [resultCountMsg 0 "t/case"]⟩ ∧
    processFile marshalFailEnv2 "out" okTest =
      .ok ⟨1, 1, [], [marshalFailMsg "m2"]⟩ ∧
    processFile writeFailEnv2 "out" okTest =
      .ok ⟨1, 1, [], [writeFailMsg "w2"]⟩ ∧
    genFiles okEnv "out2" [okTest, okTest] =
      .ok ⟨2, 0,
           [("out2/group/case.json", "JSON"), ("out2/group/case.json", "JSON")],
           []⟩ := by
  obtain ⟨c1, c2, c3, c4, c5, c6, c7, c8, c9, c10, c11, c12, c13, c14, c15,
    c16, c17⟩ := error_severity_split
  exact ⟨c1 ["prog"] (by decide) (by decide),
    c2 badYamlEnv "src" "out" ⟨"testdata/group/case.yaml", false, none⟩ []
      "bytes" "yaml: bad" rfl rfl rfl rfl rfl,
    c4 parseFailEnv okCase "perr" rfl,
    c9 mkdirFailEnv "out" okTest 1 0 okAugs [] "JSON" "mkerr" rfl rfl
      (by decide) rfl,
    (c10 compileFailEnv okCase [⟨"mod_0", "mod_0", ⟨"data.example.allow", 1⟩, none⟩]
      "cerr" rfl (by decide) rfl).1,
    (c11 okEnv okCase ["example/allow"] ["data.example.allow"] [] [] (by decide)).1,
    (c12 unmarshalFailEnv okCase ["example/allow"] [] "planraw" none "uerr" rfl).1,
    (c13 resultlessEnv okCase ["example/allow"] ["data.example.allow"] []
      "planraw" [] rfl rfl rfl (by decide)).1,
    c14 marshalFailEnv2 "out" okTest 1 0 okAugs [] "m2" rfl rfl,
    c15 writeFailEnv2 "out" okTest 1 0 okAugs [] "JSON" "w2" rfl rfl
      (by decide) rfl rfl,
    c17 okEnv "out2" okTest [okTest] ⟨1, 0, [("out2/group/case.json", "JSON")], []⟩
      ⟨1, 0, [("out2/group/case.json", "JSON")], []⟩ rfl
      (c17 okEnv "out2" okTest [] ⟨1, 0, [("out2/group/case.json", "JSON")], []⟩
        ⟨0, 0, [], []⟩ rfl rfl)⟩

/-- Characters with equal code points are equal. -/
theorem char_toNat_inj {a b : Char} (h : a.toNat = b.toNat) : a = b := by
  have hv : a.val = b.val := by
    apply UInt32.ext
    exact h
  exact Char.eq_of_val_eq hv

/-- The split of a path of the shape `A/dir/file` (with `dir` and `file`
free of separators) ends in the segments `dir` and `file`. -/
theorem goSplitChar_last_two (s : String) (A dir file : List Char)
    (hdir : '/' ∉ dir) (hfile : '/' ∉ file)
    (hs : s = ⟨A ++ '/' :: (dir ++ '/' :: file)⟩) :
    goSplitChar '/' s =
      (goSplitL '/' A).map String.mk ++ [⟨dir⟩, ⟨file⟩] := by
  rw [hs]
  show (goSplitL '/' (A ++ '/' :: (dir ++ '/' :: file))).map String.mk = _
  rw [goSplitL_sep_append, goSplitL_sep_append, goSplitL_no_sep '/' dir hdir,
    goSplitL_no_sep '/' file hfile, List.map_append]
  rfl

/-- The last two elements of a list, via `getD` at the indices the
source uses (`len-2` and `len-1`). -/
theorem getD_append_two {α : Type} (M : List α) (a b d : α) :
    (M ++ [a, b]).getD ((M ++ [a, b]).length - 2) d = a ∧
    (M ++ [a, b]).getD ((M ++ [a, b]).length - 1) d = b := by
  constructor
  · have hlen : (M ++ [a, b]).length - 2 = M.length := by
      simp [List.length_append]
    rw [hlen, List.getD_append_right _ _ _ _ le_rfl]
    simp
  · have hlen : (M ++ [a, b]).length - 1 = M.length + 1 := by
      simp [List.length_append]
    rw [hlen, List.getD_append_right _ _ _ _ (by omega)]
    simp [Nat.add_sub_cancel_left]

/-- C8: for a source path of the shape `A/dir/file`, the output is
written to the destination root joined with `dir` and with `file`'s
`.yaml` occurrences replaced by `.json`; and the modelled `os.MkdirAll`
create-if-missing semantics make repeated directory creation a no-op. -/
theorem output_path_mirror (env : Env) (dst : String) (t : Test)
    (A dir file : List Char) (hdir : '/' ∉ dir) (hfile : '/' ∉ file)
    (hname : t.filename = ⟨A ++ '/' :: (dir ++ '/' :: file)⟩)
    (s f : Nat) (augs : List AugCase) (log : List String) (bytes : String)
    (hc : processCases env t.cases = .ok (s, f, augs, log))
    (hmar : env.marshal augs = .ok bytes)
    (hmk : env.mkdir (dst ++ "/" ++ ⟨dir⟩) = none)
    (hwr : env.write (dst ++ "/" ++ ⟨dir⟩ ++ "/" ++ goReplaceAll ⟨file⟩ ".yaml" ".json")
        bytes = none) :
    (outFolder dst t = dst ++ "/" ++ ⟨dir⟩ ∧
     outFileName t = goReplaceAll ⟨file⟩ ".yaml" ".json" ∧
     processFile env dst t =
       .ok ⟨s, f,
            [(dst ++ "/" ++ ⟨dir⟩ ++ "/" ++ goReplaceAll ⟨file⟩ ".yaml" ".json", bytes)],
            log⟩) ∧
    (∀ (fs : List String) (pth : String),
      mkdirAllFS (mkdirAllFS fs pth) pth = mkdirAllFS fs pth) := by
  have hsegs := goSplitChar_last_two t.filename A dir file hdir hfile hname
  have hlen : (goSplitChar '/' t.filename).length =
      (goSplitL '/' A).length + 2 := by
    rw [hsegs]
    simp
  have hd2 : (goSplitChar '/' t.filename).getD
      ((goSplitChar '/' t.filename).length - 2) "" = ⟨dir⟩ := by
    rw [hsegs]
    exact (getD_append_two _ _ _ _).1
  have hd1 : (goSplitChar '/' t.filename).getD
      ((goSplitChar '/' t.filename).length - 1) "" = ⟨file⟩ := by
    rw [hsegs]
    exact (getD_append_two _ _ _ _).2
  have hfold : outFolder dst t = dst ++ "/" ++ ⟨dir⟩ := by
    unfold outFolder
    rw [hd2]
  have hfn : outFileName t = goReplaceAll ⟨file⟩ ".yaml" ".json" := by
    unfold outFileName
    rw [hd1]
  refine ⟨⟨hfold, hfn, ?_⟩, ?_⟩
  · unfold processFile
    rw [hc]
    dsimp only
    rw [hmar]
    dsimp only
    unfold processFileWrite
    rw [if_pos (by omega), hfold, hfn, hmk]
    dsimp only
    rw [hwr]
  · intro fs pth
    by_cases h : pth ∈ fs <;> simp [mkdirAllFS, h]

/-- Witness for C8 at the concrete source file
`testdata/group/case.yaml` and destination root `out`. -/
theorem output_path_mirror_witness :
    outFolder "out" okTest = "out/group" ∧
    outFileName okTest = "case.json" ∧
    processFile okEnv "out" okTest =
      .ok ⟨1, 0, [("out/group/case.json", "JSON")], []⟩ ∧
    mkdirAllFS (mkdirAllFS [] "out/group") "out/group" = mkdirAllFS [] "out/group" :=
  have h := output_path_mirror okEnv "out" okTest "testdata".data "group".data
    "case.yaml".data (by decide) (by decide) rfl 1 0 okAugs [] "JSON"
    rfl rfl rfl rfl
  ⟨h.1.1, h.1.2.1, h.1.2.2, h.2 [] "out/group"⟩

/-! ## Determinism: the sort order and map-iteration-order independence -/

theorem strLeb_total : ∀ a b : List Char, strLeb a b = true ∨ strLeb b a = true
  | [], _ => Or.inl rfl
  | _ :: _, [] => Or.inr rfl
  | a :: as, b :: bs => by
    unfold strLeb
    rcases Nat.lt_trichotomy a.toNat b.toNat with h | h | h
    · left
      rw [if_pos h]
    · rw [if_neg (by omega), if_neg (by omega), if_neg (by omega), if_neg (by omega)]
      exact strLeb_total as bs
    · right
      rw [if_pos h]

theorem strLeb_trans : ∀ a b c : List Char,
    strLeb a b = true → strLeb b c = true → strLeb a c = true
  | [], _, _, _, _ => rfl
  | _ :: _, [], _, hab, _ => by simp [strLeb] at hab
  | _ :: _, _ :: _, [], _, hbc => by simp [strLeb] at hbc
  | a :: as, b :: bs, c :: cs, hab, hbc => by
    unfold strLeb at hab hbc ⊢
    by_cases h3 : b.toNat < a.toNat
    · rw [if_neg (by omega), if_pos h3] at hab
      simp at hab
    · by_cases h4 : c.toNat < b.toNat
      · rw [if_neg (by omega), if_pos h4] at hbc
        simp at hbc
      · by_cases h5 : a.toNat < c.toNat
        · rw [if_pos h5]
        · have h6 : ¬ a.toNat < b.toNat := by omega
          have h7 : ¬ b.toNat < c.toNat := by omega
          rw [if_neg h6, if_neg h3] at hab
          rw [if_neg h7, if_neg h4] at hbc
          rw [if_neg h5, if_neg (by omega)]
          exact strLeb_trans as bs cs hab hbc

theorem strLeb_antisymm : ∀ a b : List Char,
    strLeb a b = true → strLeb b a = true → a = b
  | [], [], _, _ => rfl
  | [], _ :: _, _, hba => by simp [strLeb] at hba
  | _ :: _, [], hab, _ => by simp [strLeb] at hab
  | a :: as, b :: bs, hab, hba => by
    unfold strLeb at hab hba
    by_cases h1 : a.toNat < b.toNat
    · rw [if_neg (by omega), if_pos h1] at hba
      simp at hba
    · by_cases h2 : b.toNat < a.toNat
      · rw [if_neg h1, if_pos h2] at hab
        simp at hab
      · rw [if_neg h1, if_neg h2] at hab
        rw [if_neg h2, if_neg h1] at hba
        have hc : a = b := char_toNat_inj (by omega)
        rw [hc, strLeb_antisymm as bs hab hba]

/-- Sorting is invariant under permutation of the input: the sorted
result is the unique sorted arrangement. -/
theorem sortStrings_perm {l₁ l₂ : List String} (h : l₁.Perm l₂) :
    sortStrings l₁ = sortStrings l₂ := by
  haveI : IsTotal String (fun a b => goStrLe a b = true) :=
    ⟨fun a b => strLeb_total a.data b.data⟩
  haveI : IsTrans String (fun a b => goStrLe a b = true) :=
    ⟨fun a b c => strLeb_trans a.data b.data c.data⟩
  haveI : IsAntisymm String (fun a b => goStrLe a b = true) :=
    ⟨fun a b hab hba => by
      have hd := strLeb_antisymm a.data b.data hab hba
      cases a
      cases b
      cases hd
      rfl⟩
  exact List.eq_of_perm_of_sorted
    ((List.perm_insertionSort _ l₁).trans (h.trans (List.perm_insertionSort _ l₂).symm))
    (List.sorted_insertionSort _ l₁) (List.sorted_insertionSort _ l₂)

theorem buildResultMap_order (env : Env) (o₂ : List String → List String) :
    ∀ qr : QueryResult,
      buildResultMap { env with order := o₂ } qr = buildResultMap env qr
  | [] => rfl
  | (k, t) :: rest => by
    unfold buildResultMap
    rw [buildResultMap_order env o₂ rest]

theorem buildResultSet_order (env : Env) (o₂ : List String → List String) :
    ∀ qrs : List QueryResult,
      buildResultSet { env with order := o₂ } qrs = buildResultSet env qrs
  | [] => rfl
  | qr :: rest => by
    unfold buildResultSet
    rw [buildResultMap_order env o₂ qr, buildResultSet_order env o₂ rest]

theorem evalTC_order (env : Env) (o₂ : List String → List String)
    (pkgs : List String) (tc : TestCase) :
    evalTC { env with order := o₂ } pkgs tc = evalTC env pkgs tc := by
  unfold evalTC evalTCWith evalRunWith evalRunGo
  rw [buildResultSet_order env o₂]

theorem processCaseFinish_order (env : Env) (o₂ : List String → List String)
    (tc : TestCase) (eps skips : List String) (p : String)
    (wpr : Option ResultMap) :
    processCaseFinish { env with order := o₂ } tc eps skips p wpr =
      processCaseFinish env tc eps skips p wpr := rfl

theorem processCase_order (env : Env) (o₂ : List String → List String)
    (h₁ : ∀ l : List String, (env.order l).Perm l)
    (h₂ : ∀ l : List String, (o₂ l).Perm l) (tc : TestCase) :
    processCase { env with order := o₂ } tc = processCase env tc := by
  have hmf : caseModFiles { env with order := o₂ } tc = caseModFiles env tc := by
    unfold caseModFiles getModuleFiles
    show getModuleFilesSorted env.parse (caseSrc tc) false
        (sortStrings (o₂ (canonKeys tc.modules.length))) = _
    rw [sortStrings_perm ((h₂ (canonKeys tc.modules.length)).trans
      (h₁ (canonKeys tc.modules.length)).symm)]
  unfold processCase
  rw [hmf]
  cases hm : caseModFiles env tc with
  | error p => rfl
  | ok mfs =>
    show processCaseModules { env with order := o₂ } tc mfs =
      processCaseModules env tc mfs
    unfold processCaseModules
    by_cases hlen : mfs.length = 0
    · rw [if_pos hlen, if_pos hlen]
    · rw [if_neg hlen, if_neg hlen]
      unfold processCaseBuild
      rw [show ({ env with order := o₂ } : Env).build = env.build from rfl]
      cases hbv : env.build ⟨mfs, (deriveEntryPoints tc.note mfs).2.1, true⟩ with
      | error e => rfl
      | ok plans =>
        show processCasePlans { env with order := o₂ } tc _ _ _ plans =
          processCasePlans env tc _ _ _ plans
        unfold processCasePlans
        match plans with
        | [] => rfl
        | p :: q :: rest => rfl
        | [p] =>
          show processCaseEval { env with order := o₂ } tc _ _ _ p =
            processCaseEval env tc _ _ _ p
          unfold processCaseEval
          by_cases hcond : tc.wantError? = none ∧ tc.wantErrorCode? = none
          · rw [if_pos hcond, if_pos hcond, evalTC_order env o₂]
            cases he : evalTC env (deriveEntryPoints tc.note mfs).1 tc with
            | error gp => rfl
            | ok inner =>
              cases inner with
              | error e => rfl
              | ok rs =>
                dsimp only
                match rs with
                | [] => rfl
                | [r1] => exact processCaseFinish_order env o₂ tc _ _ p (some r1)
                | r1 :: r2 :: rest => rfl
          · rw [if_neg hcond, if_neg hcond]
            exact processCaseFinish_order env o₂ tc _ _ p none

theorem processCases_order (env : Env) (o₂ : List String → List String)
    (h₁ : ∀ l : List String, (env.order l).Perm l)
    (h₂ : ∀ l : List String, (o₂ l).Perm l) :
    ∀ cs : List TestCase,
      processCases { env with order := o₂ } cs = processCases env cs
  | [] => rfl
  | tc :: rest => by
    unfold processCases
    rw [processCase_order env o₂ h₁ h₂ tc, processCases_order env o₂ h₁ h₂ rest]

theorem processFile_order (env : Env) (o₂ : List String → List String)
    (h₁ : ∀ l : List String, (env.order l).Perm l)
    (h₂ : ∀ l : List String, (o₂ l).Perm l) (dst : String) (t : Test) :
    processFile { env with order := o₂ } dst t = processFile env dst t := by
  unfold processFile
  rw [processCases_order env o₂ h₁ h₂ t.cases]
  cases hc : processCases env t.cases with
  | error p => rfl
  | ok out =>
    obtain ⟨s, f, augs, log⟩ := out
    rfl

theorem loadWalk_order (env : Env) (o₂ : List String → List String) :
    ∀ entries : List WalkEntry,
      loadWalk { env with order := o₂ } entries = loadWalk env entries
  | [] => rfl
  | e :: rest => by
    unfold loadWalk
    rw [loadWalk_order env o₂ rest]

theorem genFiles_order (env : Env) (o₂ : List String → List String)
    (h₁ : ∀ l : List String, (env.order l).Perm l)
    (h₂ : ∀ l : List String, (o₂ l).Perm l) (dst : String) :
    ∀ ts : List Test, genFiles { env with order := o₂ } dst ts = genFiles env dst ts
  | [] => rfl
  | t :: rest => by
    unfold genFiles
    rw [processFile_order env o₂ h₁ h₂ dst t, genFiles_order env o₂ h₁ h₂ dst rest]

/-- C7: the generator is a deterministic function of the source tree:
the only nondeterminism in the source, the iteration order of the Go
map of module keys, does not affect the run's output (counts, written
files and bytes, log), because the keys are sorted before parsing.
Hence two runs over the same unchanged tree write byte-identical files. -/
theorem generate_deterministic (env : Env) (o₂ : List String → List String)
    (h₁ : ∀ l : List String, (env.order l).Perm l)
    (h₂ : ∀ l : List String, (o₂ l).Perm l) (srcPath dstPath : String) :
    generate { env with order := o₂ } srcPath dstPath =
      generate env srcPath dstPath := by
  unfold generate loadTests
  rw [show ({ env with order := o₂ } : Env).walk = env.walk from rfl,
    loadWalk_order env o₂ (env.walk srcPath)]
  cases hl : loadWalk env (env.walk srcPath) with
  | error p => rfl
  | ok tests =>
    dsimp only
    rw [genFiles_order env o₂ h₁ h₂ dstPath tests]

/-- Witness for C7: reversing the key iteration order leaves the
concrete run's output unchanged. -/
theorem generate_deterministic_witness :
    generate { okEnv with order := fun l => l.reverse } "src" "out" =
      generate okEnv "src" "out" :=
  generate_deterministic okEnv (fun l => l.reverse)
    (fun l => List.Perm.refl l) (fun l => List.reverse_perm l) "src" "out"
